import Mathlib

/-!
Verification development for the VideyLib-Desktop ingestion core.

The definitions below are a shallow embedding of the Python sources:

* `src/utils/video_utils.py` — supported-extension predicate, metadata
  probing with its two module-level result caches, thumbnail extraction,
  and the asynchronous thumbnail dispatch;
* `src/db/database.py` — the `videos` table (`file_path UNIQUE`) with
  `add_video` (an INSERT OR REPLACE) and `get_video_by_path`;
* `src/ui/main_window.py` — `_load_videos_async`, the per-folder
  ingestion loop emitting item-ready, thumbnail-ready and progress
  events.

Python floats are modelled as rationals (`ℚ`), Python `int()` truncation
as `pyInt`, filesystem and OpenCV behaviour as an explicit environment
record (`FileEnv`), exceptions as `Except`, and the module-level caches
as explicit association lists threaded through the functions.
-/

namespace VideyLib

/-- Python `int()` truncation toward zero applied to a rational. -/
def pyInt (q : ℚ) : Int := q.num.tdiv q.den

/-- Lookup in an insertion-ordered association list, modelling a Python
`dict` membership test / indexing (`key in cache` / `cache[key]`). -/
def lookupA {α : Type} : List (String × α) → String → Option α
  | [], _ => none
  | (k2, v) :: rest, k => if k2 == k then some v else lookupA rest k

/-- Assignment `cache[key] = v` on an insertion-ordered association list:
overwrite in place when the key is present, append otherwise (Python
dicts preserve insertion order). -/
def assoc_set {α : Type} : List (String × α) → String → α → List (String × α)
  | [], k, v => [(k, v)]
  | (k2, v2) :: rest, k, v =>
      if k2 == k then (k, v) :: rest else (k2, v2) :: assoc_set rest k v

/-- Cache capacity cap, `_CACHE_SIZE_LIMIT = 100` in `video_utils.py`. -/
def _CACHE_SIZE_LIMIT : Nat := 100

/-- Caching step used by both module caches (`video_utils.py` lines
75-78 and 166-169): when the cache has reached `_CACHE_SIZE_LIMIT`
entries it is cleared in full before the new entry is stored. -/
def cache_insert {α : Type} (cache : List (String × α)) (k : String) (v : α) :
    List (String × α) :=
  let base := if cache.length ≥ _CACHE_SIZE_LIMIT then [] else cache
  assoc_set base k v

/-- The supported-extension list of `video_utils.py`. -/
def SUPPORTED_VIDEO_EXTENSIONS : List String :=
  [".mp4", ".mkv", ".avi", ".mov", ".wmv", ".flv", ".webm", ".m4v",
   ".mpeg", ".mpg", ".3gp", ".3g2"]

/-- Index of the last occurrence of a character in a list, `-1` when the
character does not occur (the value of Python `str.rfind`). -/
def lastIndexOf : List Char → Char → Int
  | [], _ => -1
  | a :: rest, c =>
      let r := lastIndexOf rest c
      if r ≥ 0 then r + 1 else if a = c then 0 else -1

/-- Model of `posixpath.splitext` on the character list of a path: the
extension starts at the last dot, provided that dot comes after the last
path separator and the basename has a non-dot character before it
(leading dots of the basename never start an extension). -/
def splitext_list (l : List Char) : List Char × List Char :=
  let sepIdx := lastIndexOf l '/'
  let dotIdx := lastIndexOf l '.'
  if dotIdx > sepIdx then
    let f := (sepIdx + 1).toNat
    let d := dotIdx.toNat
    if ((l.drop f).take (d - f)).any (fun ch => ch != '.') then
      (l.take d, l.drop d)
    else (l, [])
  else (l, [])

/-- Model of `os.path.splitext` on strings. -/
def splitext (p : String) : String × String :=
  let r := splitext_list p.toList
  (String.mk r.1, String.mk r.2)

/-- Model of Python `str.lower` (the extensions compared are ASCII). -/
def str_lower (s : String) : String := String.mk (s.toList.map Char.toLower)

/-- Embedding of `is_video_file` (`video_utils.py` lines 22-24). -/
def is_video_file (file_path : String) : Bool :=
  let ext := (splitext file_path).2
  SUPPORTED_VIDEO_EXTENSIONS.contains (str_lower ext)

/-- The metadata record built by `get_video_metadata`. -/
structure Metadata where
  width : Int
  height : Int
  fps : ℚ
  duration : ℚ
  size : Nat
  date_modified : String
  date_created : String
deriving DecidableEq

/-- Environment describing what the filesystem and OpenCV report for one
file path during one call: whether the path exists, its size and
timestamps, whether each `cv2.VideoCapture` open attempt succeeds, the
container properties OpenCV returns, whether a frame read succeeds and
the decoded frame's dimensions, and whether some operation inside the
`try` body raises an exception. -/
structure FileEnv where
  pathExists : Bool
  fileSize : Nat
  mtime : String
  ctime : String
  openOk : Bool
  openFfmpegOk : Bool
  propWidth : Int
  propHeight : Int
  propFps : ℚ
  propFrameCount : Int
  readOk : Bool
  frameW : Nat
  frameH : Nat
  raises : Bool

/-- The `try` body of `get_video_metadata` (`video_utils.py` lines
34-80), with an exception modelled as `Except.error`.  Opening falls
back to `cv2.CAP_FFMPEG` when the default open fails; if both fail the
function returns `None` (line 43).  When the reported width, height or
computed duration is degenerate and the file is non-empty, the values
are patched to the 1280x720 / 60 s defaults (lines 52-56).  The result
is `Except.ok (some record, cache insertion flag)` on success. -/
def metadata_try (env : FileEnv) : Except Unit (Option Metadata) :=
  if env.raises then Except.error ()
  else if !env.openOk && !env.openFfmpegOk then Except.ok none
  else
    let width := env.propWidth
    let height := env.propHeight
    let fps := env.propFps
    let frame_count := env.propFrameCount
    let duration : ℚ := if fps > 0 then (frame_count : ℚ) / fps else 0
    let patched :=
      if width ≤ 0 ∨ height ≤ 0 ∨ duration ≤ 0 then
        if env.fileSize > 0 then
          (if width > 0 then width else 1280,
           if height > 0 then height else 720,
           if duration > 0 then duration else 60)
        else (width, height, duration)
      else (width, height, duration)
    Except.ok (some
      { width := patched.1, height := patched.2.1, fps := fps,
        duration := patched.2.2, size := env.fileSize,
        date_modified := env.mtime, date_created := env.ctime })

/-- The heuristic fallback record built by the `except` handler of
`get_video_metadata` (`video_utils.py` lines 82-94). -/
def fallback_metadata (env : FileEnv) : Metadata :=
  { width := 1280, height := 720, fps := 30, duration := 60,
    size := env.fileSize, date_modified := env.mtime,
    date_created := env.ctime }

/-- The undecorated body of `get_video_metadata` (`video_utils.py`
lines 27-94): existence check, `_metadata_cache` hit, then the `try`
body; the `except` handler returns the fallback record without caching.
Returns the result together with the updated `_metadata_cache`. -/
def get_video_metadata_body (env : FileEnv) (file_path : String)
    (mcache : List (String × Metadata)) :
    Option Metadata × List (String × Metadata) :=
  if env.pathExists = false then (none, mcache)
  else
    match lookupA mcache file_path with
    | some r => (some r, mcache)
    | none =>
      match metadata_try env with
      | Except.ok none => (none, mcache)
      | Except.ok (some r) => (some r, cache_insert mcache file_path r)
      | Except.error _ => (some (fallback_metadata env), mcache)

/-- Insertion into the `functools.lru_cache(maxsize=100)` state that
wraps `get_video_metadata` (line 26): the memo maps the argument to the
returned value — including a `None` result — most recent first, capped
at 100 entries. -/
def lru_insert (lru : List (String × Option Metadata)) (k : String)
    (v : Option Metadata) : List (String × Option Metadata) :=
  ((k, v) :: lru).take 100

/-- Embedding of the decorated `get_video_metadata`: the
`functools.lru_cache` wrapper returns a memoised result — whatever it
was, `None` included — without re-running the body, moving the hit to
the front; on a miss it runs the body and memoises the result.  Returns
the result, the updated memo, and the updated `_metadata_cache`. -/
def get_video_metadata (env : FileEnv) (file_path : String)
    (lru : List (String × Option Metadata)) (mcache : List (String × Metadata)) :
    Option Metadata × List (String × Option Metadata) × List (String × Metadata) :=
  match lookupA lru file_path with
  | some r => (r, (file_path, r) :: lru.filter (fun e => e.1 != file_path), mcache)
  | none =>
      let r := get_video_metadata_body env file_path mcache
      (r.1, lru_insert lru file_path r.1, r.2)

/-- A Qt `QSize` target size. -/
structure QSize where
  width : Nat
  height : Nat
deriving DecidableEq

/-- A Qt `QPixmap` as far as the claims observe it: its dimensions and
whether it is the solid dark-gray placeholder fill. -/
structure Pixmap where
  width : Nat
  height : Nat
  darkGray : Bool
deriving DecidableEq

/-- The solid placeholder built on every failure branch of
`extract_thumbnail`: `QPixmap(size)` filled with `Qt.darkGray`. -/
def placeholder_pixmap (size : QSize) : Pixmap :=
  { width := size.width, height := size.height, darkGray := true }

/-- The seek position `extract_thumbnail` computes for the final frame
read (`video_utils.py` lines 129-131): `int(total_frames * position)`,
raised to frame 1 when the computed index is `<= 0`. -/
def selected_frame (total_frames : Int) (position : ℚ) : Int :=
  let target := pyInt ((total_frames : ℚ) * position)
  if target ≤ 0 then 1 else target

/-- Spec-side variant of `selected_frame` for comparison: the spec
states the position argument is first clamped into `[0, 1]`. -/
def clamp01 (q : ℚ) : ℚ := max 0 (min 1 q)

/-- Frame selection as the spec describes it, with the position clamped
into `[0, 1]` before the index computation. -/
def selected_frame_clamped (total_frames : Int) (position : ℚ) : Int :=
  selected_frame total_frames (clamp01 position)

/-- How `extract_thumbnail` positions the capture before the frame read
(`video_utils.py` lines 114-132): by frame index when the container
reports a positive frame count, otherwise by wall-clock milliseconds —
5 s into files over 10 MB, 1 s otherwise (the fps read on line 117 is
computed but unused afterwards). -/
inductive Seek where
  | frames (idx : Int)
  | msec (ms : ℚ)
deriving DecidableEq

/-- The seek decision of `extract_thumbnail` for a given environment. -/
def thumbnail_seek (env : FileEnv) (position : ℚ) : Seek :=
  if env.propFrameCount ≤ 0 then
    let seek_pos : ℚ := if env.fileSize > 10000000 then 5 else 1
    Seek.msec (seek_pos * 1000)
  else
    Seek.frames (selected_frame env.propFrameCount position)

/-- Model of `QPixmap.scaled` with `Qt.KeepAspectRatio`: the largest
rectangle fitting inside the target size that preserves the source
aspect ratio (integer arithmetic as in `QSize.scaled`). -/
def qt_scaled (p : Pixmap) (size : QSize) : Pixmap :=
  let rw : Int := ((size.height : Int) * p.width).tdiv (p.height : Int)
  if rw ≤ (size.width : Int) then
    { width := rw.toNat, height := size.height, darkGray := p.darkGray }
  else
    { width := size.width,
      height := (((size.width : Int) * p.height).tdiv (p.width : Int)).toNat,
      darkGray := p.darkGray }

/-- The pixmap built on the success path of `extract_thumbnail`
(`video_utils.py` lines 143-164): the decoded frame is resized to the
target width or height depending on orientation, and then rescaled with
`Qt.KeepAspectRatio` when the result does not match the target size
exactly. -/
def success_pixmap (env : FileEnv) (size : QSize) : Pixmap :=
  let w := env.frameW
  let h := env.frameH
  let dims :=
    if w > h then
      (size.width, (pyInt ((size.width : ℚ) / ((w : ℚ) / (h : ℚ)))).toNat)
    else
      ((pyInt ((size.height : ℚ) * ((w : ℚ) / (h : ℚ)))).toNat, size.height)
  let pix : Pixmap := { width := dims.1, height := dims.2, darkGray := false }
  if pix.width = size.width ∧ pix.height = size.height then pix
  else qt_scaled pix size

/-- The composite cache key of `extract_thumbnail` (line 100). -/
def thumb_key (file_path : String) (position : ℚ) (size : QSize) : String :=
  file_path ++ "_" ++ toString position ++ "_" ++ toString size.width
    ++ "x" ++ toString size.height

/-- The `try` body of `extract_thumbnail` (`video_utils.py` lines
105-171), with an exception modelled as `Except.error`.  A failed
`cv2.CAP_FFMPEG` open or a failed frame read returns the placeholder
without touching the cache; the success path stores the pixmap under
the composite key with the capacity-cap eviction. -/
def thumbnail_try (env : FileEnv) (position : ℚ) (size : QSize) (key : String)
    (tcache : List (String × Pixmap)) :
    Except Unit (Pixmap × List (String × Pixmap)) :=
  if env.raises then Except.error ()
  else if env.openFfmpegOk = false then Except.ok (placeholder_pixmap size, tcache)
  else
    let _seek := thumbnail_seek env position
    if env.readOk = false then Except.ok (placeholder_pixmap size, tcache)
    else
      let pix := success_pixmap env size
      Except.ok (pix, cache_insert tcache key pix)

/-- Embedding of `extract_thumbnail` (`video_utils.py` lines 96-177):
`None` when the path does not exist, a `_thumbnail_cache` hit otherwise
returns the cached pixmap, and the `except` handler converts any raised
exception into the placeholder.  Returns the result with the updated
`_thumbnail_cache`. -/
def extract_thumbnail (env : FileEnv) (file_path : String) (position : ℚ)
    (size : QSize) (tcache : List (String × Pixmap)) :
    Option Pixmap × List (String × Pixmap) :=
  if env.pathExists = false then (none, tcache)
  else
    let key := thumb_key file_path position size
    match lookupA tcache key with
    | some p => (some p, tcache)
    | none =>
      match thumbnail_try env position size key tcache with
      | Except.error _ => (some (placeholder_pixmap size), tcache)
      | Except.ok r => (some r.1, r.2)

/-- A row of the `videos` table (`database.py` lines 19-33).  `watched`
defaults to 0, `last_watched` to NULL and `last_position` to 0. -/
structure VideoRow where
  id : Nat
  file_path : String
  file_name : String
  folder_path : String
  size : Nat
  duration : ℚ
  watched : Bool
  last_watched : Option String
  last_position : Nat
  date_added : String
  date_modified : String
deriving DecidableEq

/-- The `videos` table with its AUTOINCREMENT counter: every insert uses
`nextId` and bumps it, so ids are never reused. -/
structure VideosTable where
  rows : List VideoRow
  nextId : Nat
deriving DecidableEq

/-- Embedding of `Database.add_video` (`database.py` lines 74-89): an
`INSERT OR REPLACE` on the `file_path UNIQUE` column deletes any
conflicting row and inserts a brand-new row with a fresh AUTOINCREMENT
id; the columns absent from the INSERT list (`watched`, `last_watched`,
`last_position`) take their schema defaults.  Returns the updated table
and `cursor.lastrowid`. -/
def add_video (tbl : VideosTable) (file_path file_name folder_path : String)
    (size : Nat) (duration : ℚ) (date_added date_modified : String) :
    VideosTable × Nat :=
  let kept := tbl.rows.filter (fun r => !(r.file_path == file_path))
  let row : VideoRow :=
    { id := tbl.nextId, file_path := file_path, file_name := file_name,
      folder_path := folder_path, size := size, duration := duration,
      watched := false, last_watched := none, last_position := 0,
      date_added := date_added, date_modified := date_modified }
  ({ rows := kept ++ [row], nextId := tbl.nextId + 1 }, tbl.nextId)

/-- Embedding of `Database.get_video_by_path` (`database.py` lines
91-101): the row whose `file_path` matches, if any. -/
def get_video_by_path (tbl : VideosTable) (file_path : String) : Option VideoRow :=
  tbl.rows.find? (fun r => r.file_path == file_path)

/-- Number of rows the table holds for one path. -/
def countPath (tbl : VideosTable) (file_path : String) : Nat :=
  (tbl.rows.filter (fun r => r.file_path == file_path)).length

/-- The events `_load_videos_async` delivers through Qt signals:
`video_loaded_signal` (item-ready), `thumbnail_loaded_signal`
(thumbnail-ready) and `load_progress_signal` (progress). -/
inductive Event where
  | itemReady (path name : String) (size : Nat) (duration : ℚ)
      (watched : Bool) (tags : List String)
  | thumbReady (path : String)
  | progress (processed total : Nat)
deriving DecidableEq

/-- Whether an event is the item-ready event of the given path. -/
def isItemReadyFor (p : String) : Event → Bool
  | Event.itemReady path _ _ _ _ _ => path == p
  | _ => false

/-- Model of `os.path.join` for the folder/file-name join of the loop. -/
def path_join (folder name : String) : String := folder ++ "/" ++ name

/-- One iteration body of `_load_videos_async` (`main_window.py` lines
317-373), minus the asynchronous thumbnail dispatch and the progress
emission.  `tagsOf` abstracts `Database.get_video_tags` (the join over
`tags`/`video_tags`), `meta` abstracts `get_video_metadata` for the
per-path environment.  Returns the updated table, the item-ready events
emitted (empty exactly when the file is new and its metadata probe
returns `None`, in which case no thumbnail is scheduled either), and
whether the metadata probe was invoked. -/
def process_file (tagsOf : Nat → List String) (meta : String → Option Metadata)
    (folder : String) (tbl : VideosTable) (name : String) :
    VideosTable × List Event × Bool :=
  let file_path := path_join folder name
  match get_video_by_path tbl file_path with
  | some v =>
      (tbl, [Event.itemReady file_path name v.size v.duration v.watched
        (tagsOf v.id)], false)
  | none =>
    match meta file_path with
    | none => (tbl, [], true)
    | some m =>
      let r := add_video tbl file_path name folder m.size m.duration
        m.date_created m.date_modified
      (r.1, [Event.itemReady file_path name m.size m.duration false []], true)

/-- The sequential event trace of the `for` loop of `_load_videos_async`
when no cancellation is observed: each file's events followed by its
progress event `(i + 1, total)`. -/
def run_loop (tagsOf : Nat → List String) (meta : String → Option Metadata)
    (folder : String) (total : Nat) :
    VideosTable → List String → Nat → VideosTable × List Event
  | tbl, [], _ => (tbl, [])
  | tbl, name :: rest, i =>
      let r := process_file tagsOf meta folder tbl name
      let r2 := run_loop tagsOf meta folder total r.1 rest (i + 1)
      (r2.1, r.2.1 ++ [Event.progress (i + 1) total] ++ r2.2)

/-- The full uncancelled run of `_load_videos_async` (`main_window.py`
lines 304-380): the initial `(0, total)` progress emission, the loop,
and the final `(total, total)` progress emission. -/
def load_videos_async (tagsOf : Nat → List String)
    (meta : String → Option Metadata) (folder : String)
    (tbl : VideosTable) (files : List String) : VideosTable × List Event :=
  let total := files.length
  let r := run_loop tagsOf meta folder total tbl files 0
  (r.1, Event.progress 0 total :: (r.2 ++ [Event.progress total total]))

/-- The progress events of a trace, in order. -/
def progress_events : List Event → List (Nat × Nat)
  | [] => []
  | Event.progress a b :: rest => (a, b) :: progress_events rest
  | _ :: rest => progress_events rest

/-- State of one in-flight ingestion: the catalog table, the file names
the main loop has not yet processed, the paths whose thumbnail task has
been submitted to the worker pool but has not yet fired, the number of
files processed so far, and the trace of emitted events. -/
structure PipeState where
  tbl : VideosTable
  queue : List String
  pending : List String
  done : Nat
  trace : List Event

/-- Small-step semantics of the concurrent ingestion: `main` runs one
iteration of the loop on the main worker (emitting the file's item-ready
event, scheduling its thumbnail task exactly when an item-ready event
was emitted, and emitting the progress event), `thumb` fires one
submitted thumbnail task (`extract_thumbnail_async`'s callback emitting
the thumbnail-ready event), and `cancel` models the loop observing the
cancellation flag and breaking. -/
inductive PipeStep (tagsOf : Nat → List String)
    (meta : String → Option Metadata) (folder : String) (total : Nat) :
    PipeState → PipeState → Prop where
  | main (s : PipeState) (name : String) (rest : List String)
      (hq : s.queue = name :: rest) :
      PipeStep tagsOf meta folder total s
        { tbl := (process_file tagsOf meta folder s.tbl name).1,
          queue := rest,
          pending := s.pending ++
            (if (process_file tagsOf meta folder s.tbl name).2.1 = [] then []
             else [path_join folder name]),
          done := s.done + 1,
          trace := s.trace ++ (process_file tagsOf meta folder s.tbl name).2.1
            ++ [Event.progress (s.done + 1) total] }
  | thumb (s : PipeState) (p : String) (hp : p ∈ s.pending) :
      PipeStep tagsOf meta folder total s
        { tbl := s.tbl, queue := s.queue, pending := s.pending.erase p,
          done := s.done, trace := s.trace ++ [Event.thumbReady p] }
  | cancel (s : PipeState) :
      PipeStep tagsOf meta folder total s
        { tbl := s.tbl, queue := [], pending := s.pending,
          done := s.done, trace := s.trace }

/-- States reachable by one ingestion request on `files` starting from
catalog `tbl0`: the initial state has emitted only the initial progress
event (`main_window.py` line 310). -/
inductive PipeReach (tagsOf : Nat → List String)
    (meta : String → Option Metadata) (folder : String)
    (tbl0 : VideosTable) (files : List String) : PipeState → Prop where
  | init : PipeReach tagsOf meta folder tbl0 files
      { tbl := tbl0, queue := files, pending := [], done := 0,
        trace := [Event.progress 0 files.length] }
  | step (s s2 : PipeState) :
      PipeReach tagsOf meta folder tbl0 files s →
      PipeStep tagsOf meta folder files.length s s2 →
      PipeReach tagsOf meta folder tbl0 files s2

/-! Helper lemmas. -/

theorem assoc_set_length_le {α : Type} (c : List (String × α)) (k : String)
    (v : α) : (assoc_set c k v).length ≤ c.length + 1 := by
  induction c with
  | nil => simp [assoc_set]
  | cons a t ih =>
      obtain ⟨k2, v2⟩ := a
      simp only [assoc_set]
      split
      · simp
      · simpa using Nat.succ_le_succ ih

theorem cache_insert_spec {α : Type} (c : List (String × α)) (k : String)
    (v : α) :
    (cache_insert c k v).length ≤ _CACHE_SIZE_LIMIT ∧
    (c.length ≥ _CACHE_SIZE_LIMIT → cache_insert c k v = [(k, v)]) := by
  unfold cache_insert
  by_cases h : c.length ≥ _CACHE_SIZE_LIMIT
  · simp only [h, if_pos]
    exact ⟨by simp [assoc_set, _CACHE_SIZE_LIMIT], fun _ => rfl⟩
  · refine ⟨?_, fun hc => absurd hc h⟩
    simp only [h, if_neg, if_false]
    have h2 := assoc_set_length_le c k v
    have h3 : ¬ c.length ≥ _CACHE_SIZE_LIMIT := h
    unfold _CACHE_SIZE_LIMIT at h3 ⊢
    omega

theorem find?_append_of_none {α : Type} (q : α → Bool) (l1 l2 : List α)
    (h : ∀ x ∈ l1, q x = false) : (l1 ++ l2).find? q = l2.find? q := by
  induction l1 with
  | nil => simp
  | cons a t ih =>
      have ha : q a = false := h a (List.mem_cons_self a t)
      rw [List.cons_append, List.find?_cons_of_neg _ (by simp [ha])]
      exact ih fun x hx => h x (List.mem_cons_of_mem a hx)

theorem length_filter_path_eq_one (rows : List VideoRow) (p : String)
    (v : VideoRow) (hnd : (rows.map VideoRow.file_path).Nodup)
    (hfind : rows.find? (fun r => r.file_path == p) = some v) :
    (rows.filter (fun r => r.file_path == p)).length = 1 := by
  induction rows with
  | nil => simp [List.find?] at hfind
  | cons a t ih =>
      rw [List.map_cons, List.nodup_cons] at hnd
      by_cases qa : (a.file_path == p) = true
      · have hap : a.file_path = p := by simpa using qa
        have hnotin : ∀ x ∈ t, (x.file_path == p) = false := by
          intro x hx
          have hxne : x.file_path ≠ p := by
            intro hcontra
            exact hnd.1 (by
              rw [hap, ← hcontra]
              exact List.mem_map_of_mem VideoRow.file_path hx)
          simpa using hxne
        have hft : t.filter (fun r => r.file_path == p) = [] :=
          List.filter_eq_nil_iff.mpr (by
            intro x hx
            simp [hnotin x hx])
        simp [List.filter_cons, qa, hft]
      · have qa2 : (a.file_path == p) = false := by
          simpa using qa
        rw [List.find?_cons_of_neg _ (by simp [qa2])] at hfind
        rw [List.filter_cons_of_neg (by simp [qa2])]
        exact ih hnd.2 hfind

/-! Claim theorems. -/

/-- C7 counterexample: the position argument of the thumbnail frame
selection is not clamped into `[0, 1]`.  With 100 total frames and
position 2, the code selects frame `int(100 * 2) = 200`, beyond the
last frame, whereas the clamped computation the claim describes would
select frame 100. -/
theorem c7_position_not_clamped :
    selected_frame 100 2 = 200 ∧ selected_frame_clamped 100 2 = 100 ∧
    ¬ ((200 : Int) ≤ 100) := by
  refine ⟨?_, ?_, by norm_num⟩
  · have h : ((100 : Int) : ℚ) * 2 = 200 := by norm_num
    simp only [selected_frame, h]
    norm_num [pyInt]
  · have hc : clamp01 2 = 1 := by
      unfold clamp01
      norm_num
    have h : ((100 : Int) : ℚ) * 1 = 100 := by norm_num
    simp only [selected_frame_clamped, hc, selected_frame, h]
    norm_num [pyInt]

/-- C7 (amended): the position argument is not clamped, but whenever the
total frame count is known and positive the selected frame index is at
least 1 — never frame 0 — and in particular position 0 selects exactly
frame 1. -/
theorem c7_selected_frame_min_one (total : Int) (pos : ℚ)
    (h : 0 < total) :
    1 ≤ selected_frame total pos ∧ selected_frame total 0 = 1 := by
  constructor
  · unfold selected_frame
    by_cases hle : pyInt ((total : ℚ) * pos) ≤ 0
    · simp [hle]
    · simp only [hle, if_false]
      omega
  · simp only [selected_frame, mul_zero]
    norm_num [pyInt]

/-- C7 witness: the amended theorem at 100 total frames, position 0. -/
theorem c7_selected_frame_min_one_witness :
    1 ≤ selected_frame 100 0 ∧ selected_frame 100 0 = 1 :=
  c7_selected_frame_min_one 100 0 (by norm_num)

/-- C8: a path is accepted by `is_video_file` exactly when the
lower-cased extension that `os.path.splitext` yields is one of the
twelve supported extensions, so the acceptance is case-insensitive in
the extension; filtering the folder listing `[a.mp4, b.txt, c.mkv]`
yields exactly `[a.mp4, c.mkv]`. -/
theorem c8_supported_extensions :
    (∀ p : String, is_video_file p = true ↔
      str_lower (splitext p).2 ∈ SUPPORTED_VIDEO_EXTENSIONS) ∧
    ["a.mp4", "b.txt", "c.mkv"].filter is_video_file = ["a.mp4", "c.mkv"] ∧
    is_video_file "A.MKV" = true ∧ is_video_file "x.Mp4" = true ∧
    is_video_file "clip.3G2" = true ∧ is_video_file "b.txt" = false ∧
    is_video_file "noext" = false := by
  refine ⟨fun p => ?_, by decide, by decide, by decide, by decide,
    by decide, by decide⟩
  unfold is_video_file
  simp

/-- C9: both result caches obey the capacity cap: an insertion never
leaves the cache with more than `_CACHE_SIZE_LIMIT = 100` entries, and
an insertion that finds the cache at (or beyond) capacity first clears
the whole cache, leaving exactly the new entry. -/
theorem c9_cache_capacity (mc : List (String × Metadata))
    (tc : List (String × Pixmap)) (k : String) (m : Metadata) (p : Pixmap) :
    ((cache_insert mc k m).length ≤ _CACHE_SIZE_LIMIT ∧
      (mc.length ≥ _CACHE_SIZE_LIMIT → cache_insert mc k m = [(k, m)])) ∧
    ((cache_insert tc k p).length ≤ _CACHE_SIZE_LIMIT ∧
      (tc.length ≥ _CACHE_SIZE_LIMIT → cache_insert tc k p = [(k, p)])) :=
  ⟨cache_insert_spec mc k m, cache_insert_spec tc k p⟩

/-- Sample metadata record used by concrete instantiations. -/
def demo_meta : Metadata :=
  { width := 1280, height := 720, fps := 30, duration := 60, size := 0,
    date_modified := "m", date_created := "c" }

/-- Sample pixmap used by concrete instantiations. -/
def demo_pix : Pixmap := { width := 320, height := 180, darkGray := true }

/-- A metadata cache at exactly the capacity cap. -/
def mc100 : List (String × Metadata) :=
  (List.range 100).map fun i => (toString i, demo_meta)

/-- A thumbnail cache at exactly the capacity cap. -/
def tc100 : List (String × Pixmap) :=
  (List.range 100).map fun i => (toString i, demo_pix)

/-- C9 witness: inserting into either cache at capacity clears it and
stores only the new entry. -/
theorem c9_cache_capacity_witness :
    cache_insert mc100 "k" demo_meta = [("k", demo_meta)] ∧
    cache_insert tc100 "k" demo_pix = [("k", demo_pix)] :=
  ⟨(c9_cache_capacity mc100 tc100 "k" demo_meta demo_pix).1.2
      (by simp [mc100, _CACHE_SIZE_LIMIT]),
   (c9_cache_capacity mc100 tc100 "k" demo_meta demo_pix).2.2
      (by simp [tc100, _CACHE_SIZE_LIMIT])⟩

/-- C10: calling `add_video` on a path that already has a row leaves
exactly one row for that path, but as a replacement, not an in-place
update: the surviving row is brand new, carries the fresh
AUTOINCREMENT id (distinct from the old row's id), and its `watched`,
`last_watched` and `last_position` fields are the schema defaults
(false, NULL, 0) regardless of what the old row stored; the old row
itself is gone from the table. -/
theorem c10_add_video_replaces (tbl : VideosTable) (r0 : VideoRow)
    (p nm fd : String) (sz : Nat) (d : ℚ) (da dm : String)
    (hids : ∀ r ∈ tbl.rows, r.id < tbl.nextId)
    (hmem : r0 ∈ tbl.rows) (hpath : r0.file_path = p) :
    countPath (add_video tbl p nm fd sz d da dm).1 p = 1 ∧
    (add_video tbl p nm fd sz d da dm).2 = tbl.nextId ∧
    get_video_by_path (add_video tbl p nm fd sz d da dm).1 p = some
      { id := tbl.nextId, file_path := p, file_name := nm,
        folder_path := fd, size := sz, duration := d, watched := false,
        last_watched := none, last_position := 0, date_added := da,
        date_modified := dm } ∧
    (add_video tbl p nm fd sz d da dm).2 ≠ r0.id ∧
    r0 ∉ (add_video tbl p nm fd sz d da dm).1.rows := by
  have hkept : ∀ x ∈ tbl.rows.filter (fun r => !(r.file_path == p)),
      (x.file_path == p) = false := by
    intro x hx
    have := (List.mem_filter.mp hx).2
    simpa using this
  have hfilter_nil :
      (tbl.rows.filter (fun r => !(r.file_path == p))).filter
        (fun r => r.file_path == p) = [] :=
    List.filter_eq_nil_iff.mpr (by
      intro x hx
      simp [hkept x hx])
  refine ⟨?_, rfl, ?_, ?_, ?_⟩
  · unfold add_video countPath
    simp only [List.filter_append, hfilter_nil, List.nil_append,
      List.filter_cons, List.filter_nil]
    simp
  · unfold add_video get_video_by_path
    simp only
    rw [find?_append_of_none _ _ _ hkept]
    simp [List.find?_cons]
  · have := hids r0 hmem
    show tbl.nextId ≠ r0.id
    omega
  · unfold add_video
    simp only [List.mem_append, List.mem_singleton]
    rintro (hin | heq)
    · have := hkept r0 hin
      simp [hpath] at this
    · have := hids r0 hmem
      rw [heq] at this
      simp at this

/-- Catalog row used by concrete instantiations: note the non-default
`watched`, `last_watched` and `last_position` values. -/
def demo_row : VideoRow :=
  { id := 1, file_path := "f/a.mp4", file_name := "a.mp4",
    folder_path := "f", size := 5, duration := 60, watched := true,
    last_watched := some "t", last_position := 7, date_added := "d",
    date_modified := "m" }

/-- One-row catalog used by concrete instantiations. -/
def demo_tbl : VideosTable := { rows := [demo_row], nextId := 2 }

/-- C10 witness: replacing the demo row resets the watch state and
assigns id 2. -/
theorem c10_add_video_replaces_witness :
    countPath (add_video demo_tbl "f/a.mp4" "a.mp4" "f" 9 30 "d2" "m2").1
      "f/a.mp4" = 1 ∧
    (add_video demo_tbl "f/a.mp4" "a.mp4" "f" 9 30 "d2" "m2").2 =
      demo_tbl.nextId ∧
    get_video_by_path
      (add_video demo_tbl "f/a.mp4" "a.mp4" "f" 9 30 "d2" "m2").1
      "f/a.mp4" = some
      { id := demo_tbl.nextId, file_path := "f/a.mp4",
        file_name := "a.mp4", folder_path := "f", size := 9,
        duration := 30, watched := false, last_watched := none,
        last_position := 0, date_added := "d2", date_modified := "m2" } ∧
    (add_video demo_tbl "f/a.mp4" "a.mp4" "f" 9 30 "d2" "m2").2 ≠
      demo_row.id ∧
    demo_row ∉ (add_video demo_tbl "f/a.mp4" "a.mp4" "f" 9 30 "d2" "m2").1.rows :=
  c10_add_video_replaces demo_tbl demo_row "f/a.mp4" "a.mp4" "f" 9 30
    "d2" "m2" (by decide) (by decide) (by decide)

/-- Environment of a path that does not exist. -/
def env_missing : FileEnv :=
  { pathExists := false, fileSize := 0, mtime := "m", ctime := "c",
    openOk := false, openFfmpegOk := false, propWidth := 0,
    propHeight := 0, propFps := 0, propFrameCount := 0, readOk := false,
    frameW := 0, frameH := 0, raises := false }

/-- Environment of an existing file whose container fails to open on
both attempts, without any exception being raised (the normal
`cv2.VideoCapture` behaviour on a corrupt file). -/
def env_fail_open : FileEnv :=
  { pathExists := true, fileSize := 5, mtime := "m", ctime := "c",
    openOk := false, openFfmpegOk := false, propWidth := 0,
    propHeight := 0, propFps := 0, propFrameCount := 0, readOk := false,
    frameW := 0, frameH := 0, raises := false }

/-- Environment of an existing file whose probe raises an exception. -/
def env_raises : FileEnv := { env_fail_open with raises := true }

/-- Environment of an existing, healthy file (frame rate reported as 0,
so the duration falls back to the 60 s heuristic without requiring
rational division). -/
def env_healthy : FileEnv :=
  { pathExists := true, fileSize := 5, mtime := "m", ctime := "c",
    openOk := true, openFfmpegOk := true, propWidth := 640,
    propHeight := 360, propFps := 0, propFrameCount := 300,
    readOk := true, frameW := 640, frameH := 360, raises := false }

/-- C1 counterexample: `extract_thumbnail` on a path that does not
exist returns `None` (`video_utils.py` lines 97-98), so it is not true
that it never returns null for every input. -/
theorem c1_nonexistent_returns_none :
    (extract_thumbnail env_missing "v.mp4" (mkRat 1 10) ⟨320, 180⟩ []).1 =
      none := by
  decide

/-- C1 (amended): for every existing path on which extraction fails —
the container cannot be opened, the frame read fails, or an exception
is raised — `extract_thumbnail` returns the solid placeholder whose
dimensions equal exactly the requested target size, and in particular
does not return null; only a path that does not exist yields null, and
no exception escapes the function (the `except` handler converts it to
the placeholder). -/
theorem c1_failure_returns_placeholder (env : FileEnv) (path : String)
    (pos : ℚ) (size : QSize) (tc : List (String × Pixmap))
    (hex : env.pathExists = true)
    (hmiss : lookupA tc (thumb_key path pos size) = none)
    (hfail : env.raises = true ∨ env.openFfmpegOk = false ∨
      env.readOk = false) :
    (extract_thumbnail env path pos size tc).1 =
      some (placeholder_pixmap size) ∧
    (placeholder_pixmap size).width = size.width ∧
    (placeholder_pixmap size).height = size.height ∧
    (extract_thumbnail env path pos size tc).1 ≠ none := by
  have hmain : (extract_thumbnail env path pos size tc).1 =
      some (placeholder_pixmap size) := by
    unfold extract_thumbnail thumbnail_try
    by_cases hra : env.raises = true
    · simp [hex, hmiss, hra]
    · have hra2 : env.raises = false := by simpa using hra
      rcases hfail with hr | ho | hrd
      · exact absurd hr hra
      · simp [hex, hmiss, hra2, ho]
      · by_cases ho2 : env.openFfmpegOk = false
        · simp [hex, hmiss, hra2, ho2]
        · simp [hex, hmiss, hra2, ho2, hrd]
  exact ⟨hmain, rfl, rfl, by rw [hmain]; simp⟩

/-- C1 witness: the amended theorem on an existing but unopenable file
with the default 320x180 target size and an empty cache. -/
theorem c1_failure_returns_placeholder_witness :
    (extract_thumbnail env_fail_open "v.mp4" (mkRat 1 10) ⟨320, 180⟩ []).1 =
      some (placeholder_pixmap ⟨320, 180⟩) ∧
    (placeholder_pixmap ⟨320, 180⟩).width = (320 : Nat) ∧
    (placeholder_pixmap ⟨320, 180⟩).height = (180 : Nat) ∧
    (extract_thumbnail env_fail_open "v.mp4" (mkRat 1 10) ⟨320, 180⟩ []).1 ≠
      none :=
  c1_failure_returns_placeholder env_fail_open "v.mp4" (mkRat 1 10)
    ⟨320, 180⟩ [] rfl rfl (Or.inr (Or.inl rfl))

/-- C2 counterexample: for an existing file whose container cannot be
opened by either `cv2.VideoCapture` attempt (and no exception is
raised), `get_video_metadata` returns `None` (`video_utils.py` line
43), not the heuristic fallback record the claim describes. -/
theorem c2_unopenable_returns_none :
    (get_video_metadata_body env_fail_open "v.mp4" []).1 = none := by
  decide

/-- C2 (amended): the probe returns null immediately for a path that
does not exist; for an existing path the heuristic fallback record
(1280x720, 30 fps, 60 s) is returned only when an exception is raised
during probing, while a container that merely fails to open on both
attempts — without an exception — also yields null rather than the
fallback. -/
theorem c2_metadata_fallback (env : FileEnv) (path : String)
    (mc : List (String × Metadata)) (hmiss : lookupA mc path = none) :
    (env.pathExists = false →
      (get_video_metadata_body env path mc).1 = none) ∧
    (env.pathExists = true → env.raises = true →
      (get_video_metadata_body env path mc).1 =
        some (fallback_metadata env)) ∧
    (env.pathExists = true → env.raises = false → env.openOk = false →
      env.openFfmpegOk = false →
      (get_video_metadata_body env path mc).1 = none) ∧
    (fallback_metadata env).width = 1280 ∧
    (fallback_metadata env).height = 720 ∧
    (fallback_metadata env).fps = 30 ∧
    (fallback_metadata env).duration = 60 := by
  refine ⟨fun hne => ?_, fun hex hra => ?_,
    fun hex hra ho1 ho2 => ?_, rfl, rfl, rfl, rfl⟩
  · simp [get_video_metadata_body, hne]
  · simp [get_video_metadata_body, metadata_try, hex, hmiss, hra]
  · simp [get_video_metadata_body, metadata_try, hex, hmiss, hra, ho1, ho2]

/-- C2 witness: the amended theorem on an existing file whose probe
raises, with an empty cache: the fallback record is returned. -/
theorem c2_metadata_fallback_witness :
    (env_raises.pathExists = false →
      (get_video_metadata_body env_raises "v.mp4" []).1 = none) ∧
    (env_raises.pathExists = true → env_raises.raises = true →
      (get_video_metadata_body env_raises "v.mp4" []).1 =
        some (fallback_metadata env_raises)) ∧
    (env_raises.pathExists = true → env_raises.raises = false →
      env_raises.openOk = false → env_raises.openFfmpegOk = false →
      (get_video_metadata_body env_raises "v.mp4" []).1 = none) ∧
    (fallback_metadata env_raises).width = 1280 ∧
    (fallback_metadata env_raises).height = 720 ∧
    (fallback_metadata env_raises).fps = 30 ∧
    (fallback_metadata env_raises).duration = 60 :=
  c2_metadata_fallback env_raises "v.mp4" [] rfl

/-- C6 counterexample: probing a nonexistent path returns null, but the
`functools.lru_cache` wrapper memoises that null; after the file comes
into existence (a fresh probe of the new filesystem state would return
a record, third conjunct), the wrapped probe still returns the cached
null without re-examining the filesystem (second conjunct). -/
theorem c6_nonexistent_result_is_cached :
    (get_video_metadata env_missing "v.mp4" [] []).1 = none ∧
    (get_video_metadata env_healthy "v.mp4"
        (get_video_metadata env_missing "v.mp4" [] []).2.1
        (get_video_metadata env_missing "v.mp4" [] []).2.2).1 = none ∧
    (get_video_metadata_body env_healthy "v.mp4" []).1.isSome = true := by
  refine ⟨by decide, by decide, by decide⟩

/-- C6 (amended): for a path that does not exist the probe returns null
and stores nothing in the internal `_metadata_cache`; the
`functools.lru_cache` wrapper, however, does memoise the null result
for that path, so a later probe of the same path can be served from the
memo without re-examining the filesystem. -/
theorem c6_lru_memoises_none (env : FileEnv) (path : String)
    (lru : List (String × Option Metadata)) (mc : List (String × Metadata))
    (hne : env.pathExists = false) (hmiss : lookupA lru path = none) :
    (get_video_metadata env path lru mc).1 = none ∧
    (get_video_metadata env path lru mc).2.2 = mc ∧
    lookupA (get_video_metadata env path lru mc).2.1 path = some none := by
  have hbody : get_video_metadata_body env path mc = (none, mc) := by
    simp [get_video_metadata_body, hne]
  unfold get_video_metadata
  rw [hmiss]
  simp [hbody, lru_insert, lookupA]

/-- C6 witness: the amended theorem on the nonexistent-path environment
with empty caches. -/
theorem c6_lru_memoises_none_witness :
    (get_video_metadata env_missing "v.mp4" [] []).1 = none ∧
    (get_video_metadata env_missing "v.mp4" [] []).2.2 =
      ([] : List (String × Metadata)) ∧
    lookupA (get_video_metadata env_missing "v.mp4" [] []).2.1 "v.mp4" =
      some none :=
  c6_lru_memoises_none env_missing "v.mp4" [] [] rfl rfl

/-- C4: when the file's path already has a catalog entry, the loop body
leaves the catalog untouched (so a path lookup still yields exactly one
entry), emits the item-ready event with the entry's stored size,
duration, watched flag and tags, and does not invoke the metadata
probe. -/
theorem c4_existing_entry_not_duplicated (tagsOf : Nat → List String)
    (meta : String → Option Metadata) (folder : String)
    (tbl : VideosTable) (name : String) (v : VideoRow)
    (hnd : (tbl.rows.map VideoRow.file_path).Nodup)
    (hfound : get_video_by_path tbl (path_join folder name) = some v) :
    (process_file tagsOf meta folder tbl name).1 = tbl ∧
    countPath (process_file tagsOf meta folder tbl name).1
      (path_join folder name) = 1 ∧
    get_video_by_path (process_file tagsOf meta folder tbl name).1
      (path_join folder name) = some v ∧
    (process_file tagsOf meta folder tbl name).2.1 =
      [Event.itemReady (path_join folder name) name v.size v.duration
        v.watched (tagsOf v.id)] ∧
    (process_file tagsOf meta folder tbl name).2.2 = false := by
  have hred : process_file tagsOf meta folder tbl name =
      (tbl, [Event.itemReady (path_join folder name) name v.size
        v.duration v.watched (tagsOf v.id)], false) := by
    unfold process_file
    simp only [hfound]
  refine ⟨by rw [hred], ?_, by rw [hred]; exact hfound, by rw [hred],
    by rw [hred]⟩
  rw [hred]
  exact length_filter_path_eq_one tbl.rows (path_join folder name) v hnd
    hfound

/-- C4 witness: re-processing the demo catalog's file leaves the table
unchanged and emits the stored data. -/
theorem c4_existing_entry_not_duplicated_witness :
    (process_file (fun _ => ["tag1"]) (fun _ => none) "f" demo_tbl
      "a.mp4").1 = demo_tbl ∧
    countPath (process_file (fun _ => ["tag1"]) (fun _ => none) "f"
      demo_tbl "a.mp4").1 (path_join "f" "a.mp4") = 1 ∧
    get_video_by_path (process_file (fun _ => ["tag1"]) (fun _ => none)
      "f" demo_tbl "a.mp4").1 (path_join "f" "a.mp4") = some demo_row ∧
    (process_file (fun _ => ["tag1"]) (fun _ => none) "f" demo_tbl
      "a.mp4").2.1 =
      [Event.itemReady (path_join "f" "a.mp4") "a.mp4" demo_row.size
        demo_row.duration demo_row.watched
        ((fun _ => ["tag1"]) demo_row.id)] ∧
    (process_file (fun _ => ["tag1"]) (fun _ => none) "f" demo_tbl
      "a.mp4").2.2 = false :=
  c4_existing_entry_not_duplicated (fun _ => ["tag1"]) (fun _ => none)
    "f" demo_tbl "a.mp4" demo_row (by decide) (by decide)

theorem progress_events_append (l1 l2 : List Event) :
    progress_events (l1 ++ l2) = progress_events l1 ++ progress_events l2 := by
  induction l1 with
  | nil => simp [progress_events]
  | cons e t ih => cases e <;> simp [progress_events, ih]

theorem progress_events_process_file (tagsOf : Nat → List String)
    (meta : String → Option Metadata) (folder : String)
    (tbl : VideosTable) (name : String) :
    progress_events (process_file tagsOf meta folder tbl name).2.1 = [] := by
  unfold process_file
  cases hf : get_video_by_path tbl (path_join folder name) with
  | none =>
      cases hm : meta (path_join folder name) with
      | none => simp only [hf, hm]; rfl
      | some m => simp only [hf, hm]; rfl
  | some v => simp only [hf]; rfl

theorem progress_events_run_loop (tagsOf : Nat → List String)
    (meta : String → Option Metadata) (folder : String) (total : Nat)
    (files : List String) :
    ∀ (tbl : VideosTable) (i : Nat),
    progress_events (run_loop tagsOf meta folder total tbl files i).2 =
      (List.range files.length).map fun k => (i + 1 + k, total) := by
  induction files with
  | nil =>
      intro tbl i
      simp [run_loop, progress_events]
  | cons name rest ih =>
      intro tbl i
      simp only [run_loop]
      rw [progress_events_append, progress_events_append,
        progress_events_process_file, List.nil_append, ih _ (i + 1)]
      simp only [progress_events, List.length_cons]
      rw [List.range_succ_eq_map, List.map_cons, List.map_map,
        List.singleton_append]
      have hhead : i + 1 + 0 = i + 1 := by omega
      rw [hhead]
      congr 1
      apply List.map_congr_left
      intro a _
      simp only [Function.comp_apply, Nat.succ_eq_add_one]
      congr 1
      omega

theorem progress_events_load_videos (tagsOf : Nat → List String)
    (meta : String → Option Metadata) (folder : String)
    (tbl : VideosTable) (files : List String) :
    progress_events (load_videos_async tagsOf meta folder tbl files).2 =
      ((List.range (files.length + 1)).map fun k => (k, files.length)) ++
        [(files.length, files.length)] := by
  unfold load_videos_async
  simp only [progress_events]
  rw [progress_events_append, progress_events_run_loop]
  simp only [progress_events]
  rw [List.range_succ_eq_map, List.map_cons, List.map_map,
    List.cons_append]
  congr 2
  have hfun : ((fun k => (k, files.length)) ∘ fun k => k + 1) =
      fun k => (0 + 1 + k, files.length) := by
    funext k
    simp only [Function.comp_apply]
    congr 1
    omega
  rw [hfun]

theorem getLast?_map_range {α : Type} (f : Nat → α) (n : Nat) :
    ((List.range (n + 1)).map f).getLast? = some (f n) := by
  rw [List.range_succ, List.map_append]
  simp

/-- C5: in the uncancelled run over a non-empty candidate list, the
emitted progress events carry a monotonically non-decreasing processed
counter, consist of the initial `(0, total)` emission plus exactly one
event per file in iteration order (the event of the k-th file reports
`k + 1` processed) plus the final emission, and the sequence ends with
a final event whose processed count equals the total. -/
theorem c5_progress_events (tagsOf : Nat → List String)
    (meta : String → Option Metadata) (folder : String)
    (tbl : VideosTable) (files : List String) (hne : files ≠ []) :
    List.Chain' (fun a b => a.1 ≤ b.1)
      (progress_events (load_videos_async tagsOf meta folder tbl files).2) ∧
    (progress_events
      (load_videos_async tagsOf meta folder tbl files).2).length =
      files.length + 2 ∧
    (∀ k, k < files.length →
      (progress_events
        (load_videos_async tagsOf meta folder tbl files).2)[k + 1]? =
        some (k + 1, files.length)) ∧
    (progress_events
      (load_videos_async tagsOf meta folder tbl files).2).getLast? =
      some (files.length, files.length) := by
  rw [progress_events_load_videos]
  refine ⟨?_, by simp, ?_, ?_⟩
  · rw [List.chain'_append]
    refine ⟨?_, by simp, ?_⟩
    · rw [List.chain'_map, List.chain'_range_succ]
      intro m hm
      omega
    · intro x hx y hy
      rw [getLast?_map_range] at hx
      simp only [Option.mem_def, Option.some.injEq] at hx
      simp only [List.head?_cons, Option.mem_def, Option.some.injEq] at hy
      rw [← hx, ← hy]
  · intro k hk
    have hlt : k + 1 < ((List.range (files.length + 1)).map
        fun j => (j, files.length)).length := by
      simp
      omega
    rw [List.getElem?_append_left hlt, List.getElem?_map,
      List.getElem?_range (by omega)]
    rfl
  · exact List.getLast?_concat ..

/-- C5 witness: the theorem on a one-file candidate list. -/
theorem c5_progress_events_witness :
    List.Chain' (fun a b => a.1 ≤ b.1)
      (progress_events (load_videos_async (fun _ => []) (fun _ => none)
        "f" demo_tbl ["a.mp4"]).2) ∧
    (progress_events (load_videos_async (fun _ => []) (fun _ => none)
      "f" demo_tbl ["a.mp4"]).2).length = 3 ∧
    (∀ k, k < 1 →
      (progress_events (load_videos_async (fun _ => []) (fun _ => none)
        "f" demo_tbl ["a.mp4"]).2)[k + 1]? = some (k + 1, 1)) ∧
    (progress_events (load_videos_async (fun _ => []) (fun _ => none)
      "f" demo_tbl ["a.mp4"]).2).getLast? = some (1, 1) :=
  c5_progress_events (fun _ => []) (fun _ => none) "f" demo_tbl
    ["a.mp4"] (by simp)

/-- The ordering invariant of one in-flight ingestion: every pending
thumbnail task's file already has its item-ready event in the trace,
and every thumbnail-ready event in the trace is preceded by the
item-ready event of the same file. -/
def PipeInv (s : PipeState) : Prop :=
  (∀ p ∈ s.pending, ∃ j : Nat, ∃ e : Event, s.trace[j]? = some e ∧
    isItemReadyFor p e = true) ∧
  (∀ (i : Nat) (p : String), s.trace[i]? = some (Event.thumbReady p) →
    ∃ j : Nat, j < i ∧ ∃ e : Event, s.trace[j]? = some e ∧
      isItemReadyFor p e = true)

theorem getElem?_append_of_some {α : Type} {l l2 : List α} {j : Nat}
    {e : α} (h : l[j]? = some e) : (l ++ l2)[j]? = some e := by
  rcases List.getElem?_eq_some.mp h with ⟨hlt, _⟩
  rw [List.getElem?_append_left hlt]
  exact h

theorem process_file_events_shape (tagsOf : Nat → List String)
    (meta : String → Option Metadata) (folder : String)
    (tbl : VideosTable) (name : String) :
    (process_file tagsOf meta folder tbl name).2.1 = [] ∨
    ∃ sz d w tg, (process_file tagsOf meta folder tbl name).2.1 =
      [Event.itemReady (path_join folder name) name sz d w tg] := by
  unfold process_file
  cases hf : get_video_by_path tbl (path_join folder name) with
  | some v =>
      right
      exact ⟨v.size, v.duration, v.watched, tagsOf v.id,
        by simp only [hf]⟩
  | none =>
      cases hm : meta (path_join folder name) with
      | none =>
          left
          simp only [hf, hm]
      | some m =>
          right
          exact ⟨m.size, m.duration, false, [], by simp only [hf, hm]⟩

theorem thumb_index_in_prefix (tr app : List Event) (i : Nat) (p : String)
    (happ : ∀ e ∈ app, ∀ q, e ≠ Event.thumbReady q)
    (h : (tr ++ app)[i]? = some (Event.thumbReady p)) :
    tr[i]? = some (Event.thumbReady p) := by
  by_cases hlt : i < tr.length
  · rwa [List.getElem?_append_left hlt] at h
  · exfalso
    rw [List.getElem?_append_right (by omega)] at h
    exact happ _ (List.getElem?_mem h) p rfl

theorem pipeInv_init (tagsOf : Nat → List String)
    (meta : String → Option Metadata) (folder : String)
    (tbl0 : VideosTable) (files : List String) :
    PipeInv
      { tbl := tbl0, queue := files, pending := [], done := 0,
        trace := [Event.progress 0 files.length] } := by
  constructor
  · intro p hp
    simp at hp
  · intro i p h
    match i with
    | 0 => simp at h
    | n + 1 => simp at h

theorem pipeInv_step (tagsOf : Nat → List String)
    (meta : String → Option Metadata) (folder : String) (total : Nat)
    (s s2 : PipeState)
    (hstep : PipeStep tagsOf meta folder total s s2)
    (hinv : PipeInv s) : PipeInv s2 := by
  obtain ⟨hpend, hthumb⟩ := hinv
  cases hstep with
  | main name rest hq =>
      constructor
      · intro p hp
        rcases List.mem_append.mp hp with hp1 | hp2
        · obtain ⟨j, e, hje, hee⟩ := hpend p hp1
          exact ⟨j, e,
            getElem?_append_of_some (getElem?_append_of_some hje), hee⟩
        · by_cases hnil :
            (process_file tagsOf meta folder s.tbl name).2.1 = []
          · rw [if_pos hnil] at hp2
            simp at hp2
          · rw [if_neg hnil] at hp2
            simp only [List.mem_singleton] at hp2
            subst hp2
            rcases process_file_events_shape tagsOf meta folder s.tbl
              name with hsh | ⟨sz, d, w, tg, hsh⟩
            · exact absurd hsh hnil
            · refine ⟨s.trace.length,
                Event.itemReady (path_join folder name) name sz d w tg,
                ?_, by simp [isItemReadyFor]⟩
              have hcat : (s.trace ++
                  (process_file tagsOf meta folder s.tbl name).2.1)[s.trace.length]? =
                  some (Event.itemReady (path_join folder name) name sz
                    d w tg) := by
                rw [hsh]
                exact List.getElem?_concat_length ..
              exact getElem?_append_of_some hcat
      · intro i p h
        have hpre : s.trace[i]? = some (Event.thumbReady p) := by
          rw [List.append_assoc] at h
          refine thumb_index_in_prefix _ _ _ _ ?_ h
          intro e he q
          rcases List.mem_append.mp he with he1 | he2
          · rcases process_file_events_shape tagsOf meta folder s.tbl
              name with hsh | ⟨sz, d, w, tg, hsh⟩
            · rw [hsh] at he1
              simp at he1
            · rw [hsh] at he1
              simp only [List.mem_singleton] at he1
              subst he1
              intro hcontra
              cases hcontra
          · simp only [List.mem_singleton] at he2
            subst he2
            intro hcontra
            cases hcontra
        obtain ⟨j, hj, e, hje, hee⟩ := hthumb i p hpre
        exact ⟨j, hj, e,
          getElem?_append_of_some (getElem?_append_of_some hje), hee⟩
  | thumb p0 hp0 =>
      constructor
      · intro p hp
        obtain ⟨j, e, hje, hee⟩ := hpend p (List.mem_of_mem_erase hp)
        exact ⟨j, e, getElem?_append_of_some hje, hee⟩
      · intro i p h
        by_cases hlt : i < s.trace.length
        · rw [List.getElem?_append_left hlt] at h
          obtain ⟨j, hj, e, hje, hee⟩ := hthumb i p h
          exact ⟨j, hj, e, getElem?_append_of_some hje, hee⟩
        · rw [List.getElem?_append_right (by omega)] at h
          have hi0 : i - s.trace.length = 0 := by
            by_contra hne
            rw [List.getElem?_eq_none (by simp; omega)] at h
            exact Option.noConfusion h
          rw [hi0] at h
          simp only [List.getElem?_cons_zero, Option.some.injEq] at h
          have hpp : p = p0 := by
            cases h
            rfl
          subst hpp
          obtain ⟨j, e, hje, hee⟩ := hpend p hp0
          rcases List.getElem?_eq_some.mp hje with ⟨hjlt, _⟩
          exact ⟨j, by omega, e, getElem?_append_of_some hje, hee⟩
  | cancel => exact ⟨hpend, hthumb⟩

theorem pipeInv_reach (tagsOf : Nat → List String)
    (meta : String → Option Metadata) (folder : String)
    (tbl0 : VideosTable) (files : List String) (s : PipeState)
    (hreach : PipeReach tagsOf meta folder tbl0 files s) : PipeInv s := by
  induction hreach with
  | init => exact pipeInv_init tagsOf meta folder tbl0 files
  | step s1 s2 h1 hstep ih =>
      exact pipeInv_step tagsOf meta folder files.length s1 s2 hstep ih

/-- C3: in every state reachable by one ingestion request — whichever
interleaving of main-loop iterations (both the new-entry and the
existing-entry branch), asynchronous thumbnail completions, and
cancellation occurred — every thumbnail-ready event in the emitted
trace is strictly preceded by the item-ready event of the same file. -/
theorem c3_item_before_thumbnail (tagsOf : Nat → List String)
    (meta : String → Option Metadata) (folder : String)
    (tbl0 : VideosTable) (files : List String) (s : PipeState)
    (hreach : PipeReach tagsOf meta folder tbl0 files s) (i : Nat)
    (p : String) (hthumb : s.trace[i]? = some (Event.thumbReady p)) :
    ∃ j, j < i ∧ ∃ e, s.trace[j]? = some e ∧
      isItemReadyFor p e = true := by
  have h := pipeInv_reach tagsOf meta folder tbl0 files s hreach
  unfold PipeInv at h
  exact h.2 i p hthumb

/-- Probe used by the concrete ingestion run. -/
def c3_meta : String → Option Metadata := fun _ => some demo_meta

/-- Tag lookup used by the concrete ingestion run. -/
def c3_tags : Nat → List String := fun _ => []

/-- Empty initial catalog for the concrete ingestion run. -/
def c3_tbl0 : VideosTable := { rows := [], nextId := 1 }

/-- Initial state of the concrete ingestion run on `[a.mp4]`. -/
def c3_s0 : PipeState :=
  { tbl := c3_tbl0, queue := ["a.mp4"], pending := [], done := 0,
    trace := [Event.progress 0 1] }

/-- State after the main loop processed `a.mp4`. -/
def c3_s1 : PipeState :=
  { tbl := (process_file c3_tags c3_meta "f" c3_s0.tbl "a.mp4").1,
    queue := [],
    pending := c3_s0.pending ++
      (if (process_file c3_tags c3_meta "f" c3_s0.tbl "a.mp4").2.1 = []
       then [] else [path_join "f" "a.mp4"]),
    done := c3_s0.done + 1,
    trace := c3_s0.trace ++
      (process_file c3_tags c3_meta "f" c3_s0.tbl "a.mp4").2.1 ++
      [Event.progress (c3_s0.done + 1) 1] }

/-- State after the thumbnail task of `a.mp4` fired. -/
def c3_s2 : PipeState :=
  { tbl := c3_s1.tbl, queue := c3_s1.queue,
    pending := c3_s1.pending.erase (path_join "f" "a.mp4"),
    done := c3_s1.done,
    trace := c3_s1.trace ++ [Event.thumbReady (path_join "f" "a.mp4")] }

/-- C3 witness: in the concrete run, the thumbnail-ready event at trace
index 3 is preceded by the item-ready event of the same file. -/
theorem c3_item_before_thumbnail_witness :
    ∃ j, j < 3 ∧ ∃ e, c3_s2.trace[j]? = some e ∧
      isItemReadyFor (path_join "f" "a.mp4") e = true :=
  c3_item_before_thumbnail c3_tags c3_meta "f" c3_tbl0 ["a.mp4"] c3_s2
    (PipeReach.step c3_s1 c3_s2
      (PipeReach.step c3_s0 c3_s1 PipeReach.init
        (PipeStep.main c3_s0 "a.mp4" [] rfl))
      (PipeStep.thumb c3_s1 (path_join "f" "a.mp4") (by decide)))
    3 (path_join "f" "a.mp4") (by decide)

end VideyLib
